import Mathlib

/-!
Verification of the lambdabats fan-out test runner (dolthub/lambdabats).

This file gives a shallow embedding, in Lean 4, of the parts of the Go
sources that the checked claims are about:

* the test-file scanner `LoadTests` (src/client/batsfile.go),
* the regex filter escaper `EscapeNameForFilter` (src/client/batsfile.go),
* the JUnit reply parser `TestRun.Result` (src/client/batsfile.go),
* the TAP and pretty reporters `OutputTAPResults` / `OutputBatsResults`
  (src/client/output.go and the sorted variant in the executor sources),
* the sandbox cache materialization `DownloadAndUntar`,
* the artifact key computation of `BuildTestsFile` together with byte-level
  models of SHA-256 (FIPS 180-4, as used by Go's crypto/sha256),
  base32-hex encoding (Go's encoding/base32 HexEncoding) and the tar
  archive bytes produced by Go's archive/tar writer for the dolt archive.

Strings read from files are modelled as lists of characters (the sources
only manipulate ASCII); machine integers that matter are modelled as `Nat`
with explicit reduction modulo 2^32 where Go's uint32 arithmetic wraps.
Fallible Go functions returning `(T, error)` are modelled as
`Except String T`; a Go `panic` (index out of range) is modelled by an
`Option` result being `none`.
-/

namespace LambdaBats

/- ### Small string helpers mirroring the Go standard library -/

/-- Go `strings.Split(s, sep)` for a one-character separator, on a character
list. `strings.Split("", sep)` yields `[""]`, which this matches. -/
def goSplitChar (sep : Char) : List Char → List (List Char)
  | [] => [[]]
  | c :: rest =>
    match goSplitChar sep rest with
    | [] => [[]]
    | g :: gs => if c = sep then [] :: g :: gs else (c :: g) :: gs

/-- Go `strings.TrimRight(s, cutset)`: remove trailing characters that are
members of `cutset` (a character-set trim, not a suffix trim). -/
def goTrimRight (cutset : List Char) (s : List Char) : List Char :=
  (s.reverse.dropWhile (fun c => cutset.contains c)).reverse

/-- Go `strings.ReplaceAll(s, old, new)` for a one-character `old`. -/
def goReplaceAllChar (s : List Char) (old : Char) (new : List Char) : List Char :=
  s.flatMap (fun c => if c = old then new else [c])

/-- Go `<` on strings: byte-wise lexicographic comparison (the sources
compare ASCII file names, where byte order and character order agree). -/
def goCharListLess : List Char → List Char → Bool
  | [], [] => false
  | [], _ :: _ => true
  | _ :: _, [] => false
  | a :: as, b :: bs =>
    if a.toNat < b.toNat then true
    else if a.toNat = b.toNat then goCharListLess as bs
    else false

/-- Go `a < b` on strings. -/
def goStringLess (a b : String) : Bool := goCharListLess a.data b.data

/-- Go `strings.Split(s, "\n")`, used by the reporters to expand output. -/
def goSplitStringNewline (s : String) : List String :=
  (goSplitChar '\n' s.data).map (fun l => String.mk l)

/- ### Test-file scanner (src/client/batsfile.go, LoadTests) -/

/-- The line marker `# bats test_tags=` recognized by the scanner. -/
def tagMarker : List Char := "# bats test_tags=".data

/-- The line marker `@test "` recognized by the scanner. -/
def testMarker : List Char := "@test \"".data

/-- The cutset of `strings.TrimRight(line, "\" {")` in `LoadTests`: the
characters `"`, space and `{`. -/
def testTrimCutset : List Char := ['"', ' ', '{']

/-- A test as emitted by the scanner: its name and its tags. The `File`
back-reference and the (initially empty) run list carried by the Go
`Test` struct play no role in the scanner claims. -/
structure ScannedTest where
  name : List Char
  tags : List (List Char)
deriving DecidableEq, Repr

/-- The scanner loop of `LoadTests`: one pass over the lines, carrying the
pending tag list. A `# bats test_tags=<rest>` line replaces the pending
tags with `<rest>` split on single spaces; an `@test "<...>` line emits a
test whose name is the line with the `@test "` marker removed from the
left and the characters `"`, space, `{` trimmed from the right
(`strings.TrimRight`), then clears the pending tags. All other lines are
ignored. -/
def loadTestsLoop (tags : List (List Char)) : List (List Char) → List ScannedTest
  | [] => []
  | line :: rest =>
    if tagMarker.isPrefixOf line then
      loadTestsLoop (goSplitChar ' ' (line.drop tagMarker.length)) rest
    else if testMarker.isPrefixOf line then
      ⟨goTrimRight testTrimCutset (line.drop testMarker.length), tags⟩ ::
        loadTestsLoop [] rest
    else
      loadTestsLoop tags rest

/-- `LoadTests` on the lines of one file (the pending tag list starts empty). -/
def LoadTests (lines : List (List Char)) : List ScannedTest :=
  loadTestsLoop [] lines

/-- The full source line `@test "<name>" {` for a given test name. -/
def testDeclLine (name : List Char) : List Char :=
  testMarker ++ name ++ ['"', ' ', '{']

/-- The number of lines the scanner recognizes as `@test "` lines (a line
starting with `# bats test_tags=` can never also start with `@test "`). -/
def countTestLines (lines : List (List Char)) : Nat :=
  lines.countP (fun l => testMarker.isPrefixOf l)

/-- The scanner's pending-tag state after processing `lines`, starting from
`tags`: a tag line replaces the state by its split payload, a test line
resets it to `[]`, every other line leaves it unchanged. -/
def pendingTags (tags : List (List Char)) (lines : List (List Char)) : List (List Char) :=
  lines.foldl
    (fun acc l =>
      if tagMarker.isPrefixOf l then goSplitChar ' ' (l.drop tagMarker.length)
      else if testMarker.isPrefixOf l then []
      else acc)
    tags

/- ### Regex filter escaper (src/client/batsfile.go, EscapeNameForFilter) -/

/-- `EscapeNameForFilter`: replace every `(` by `\(` and every `+` by `\+`,
then wrap the result in `^...$`. No other character is altered. -/
def EscapeNameForFilter (n : String) : String :=
  let escaped := goReplaceAllChar n.data '(' ['\\', '(']
  let escaped := goReplaceAllChar escaped '+' ['\\', '+']
  String.mk ('^' :: escaped ++ ['$'])

/-- The per-character effect of the two `ReplaceAll` calls: `(` becomes
`\(`, `+` becomes `\+`, anything else is untouched. -/
def escChar (c : Char) : List Char :=
  if c = '(' then ['\\', '(']
  else if c = '+' then ['\\', '+']
  else [c]

/-- A token of the fragment of RE2 regular-expression syntax reachable from
escaped test names: a literal character or the `.` wildcard. -/
inductive RegexTok where
  | lit (c : Char)
  | anyChar
deriving DecidableEq, Repr

/-- The RE2 metacharacters (Go regexp syntax): characters with special
meaning outside a character class. -/
def regexMetaChars : List Char :=
  ['\\', '.', '+', '*', '?', '(', ')', '|', '[', ']', '{', '}', '^', '$']

/-- Lex the body of a pattern into tokens. `\m` for a metacharacter `m` is
the literal `m`; `.` is the any-character wildcard; an ordinary character
is a literal. Patterns using any other regex construct (an unescaped
metacharacter, or an escape this model does not cover) fall outside the
modelled fragment and yield `none`. Modelled from Go's regexp (RE2)
syntax. -/
def lexRegexBody : List Char → Option (List RegexTok)
  | [] => some []
  | c :: rest =>
    if c = '\\' then
      match rest with
      | [] => none
      | d :: rest2 =>
        if d ∈ regexMetaChars then
          (lexRegexBody rest2).map (fun ts => RegexTok.lit d :: ts)
        else none
    else if c = '.' then (lexRegexBody rest).map (fun ts => RegexTok.anyChar :: ts)
    else if c ∈ regexMetaChars then none
    else (lexRegexBody rest).map (fun ts => RegexTok.lit c :: ts)

/-- Parse a fully anchored pattern `^<body>$` (as a character list) into
its body tokens; any pattern not of that shape is outside the modelled
fragment. -/
def parseAnchoredRegexData : List Char → Option (List RegexTok)
  | [] => none
  | c :: rest =>
    if c = '^' then
      match rest.reverse with
      | [] => none
      | d :: bodyRev => if d = '$' then lexRegexBody bodyRev.reverse else none
    else none

/-- Parse a fully anchored pattern `^<body>$` into its body tokens. -/
def parseAnchoredRegex (s : String) : Option (List RegexTok) :=
  parseAnchoredRegexData s.data

/-- Whether one token matches one character. RE2's `.` matches any
character except newline (the default, no flags). -/
def regexTokMatches : RegexTok → Char → Bool
  | RegexTok.lit c, d => c = d
  | RegexTok.anyChar, d => d ≠ '\n'

/-- Whether a token sequence matches a whole string (the pattern is
anchored on both sides, so the token list must consume every character). -/
def regexToksMatch : List RegexTok → List Char → Bool
  | [], [] => true
  | t :: ts, c :: cs => regexTokMatches t c && regexToksMatch ts cs
  | _, _ => false

/-- Whether the anchored pattern `pat` matches exactly the whole string
`s`, under the modelled RE2 fragment; `none` when `pat` is outside the
fragment. -/
def anchoredRegexMatches (pat : String) (s : String) : Option Bool :=
  (parseAnchoredRegex pat).map (fun ts => regexToksMatch ts s.data)

/- ### Wire types and the reply parser (src/client/batsfile.go, TestRun.Result) -/

/-- Wire reply `wire.RunTestResult`: the captured harness output and the
textual error of the harness process (empty on clean exit). -/
structure RunTestResult where
  Output : String
  Err : String
deriving DecidableEq, Repr

/-- A `<testcase>` element as unmarshaled by `TestRun.Result`: its `name`
attribute and the optional text of its `<skipped>` and `<failure>`
children (`nil` pointers modelled as `none`). -/
structure JUnitTestCase where
  name : String
  skipped : Option String
  failure : Option String
deriving DecidableEq, Repr

/-- A `<testsuite>` element: its `<testcase>` children. -/
structure JUnitTestSuite where
  testCases : List JUnitTestCase
deriving DecidableEq, Repr

/-- The `<testsuites>` document: its `<testsuite>` children. -/
structure JUnitReport where
  testSuites : List JUnitTestSuite
deriving DecidableEq, Repr

/-- An XML parser for the JUnit shape, abstracting Go's `xml.Unmarshal`
(standard library, external to the repository): `none` models a non-nil
unmarshal error, `some r` a successful unmarshal. -/
def XmlParse : Type := String → Option JUnitReport

/-- One recorded run of a test: the wire reply. -/
structure TestRun where
  Response : RunTestResult
deriving DecidableEq, Repr

/-- The three result statuses; `Success` is the Go zero value. -/
inductive TestRunResultStatus where
  | Success
  | Failure
  | Skipped
deriving DecidableEq, Repr

/-- A parsed test result: status plus the skip reason or failure detail. -/
structure TestRunResult where
  Status : TestRunResultStatus
  Output : String
deriving DecidableEq, Repr

/-- `TestRun.Result(name)`, parametric in the XML parser `parse`:

* a non-empty `Response.Err` different from `"exit status 1"` returns that
  text as a non-nil error;
* a failed unmarshal returns the zero `TestRunResult` with a NIL error
  (the Go code reads `return TestRunResult{}, nil` on unmarshal error);
* other than exactly one `<testsuite>` is an error;
* the first `<testcase>` whose `name` equals `name` decides the status:
  `<skipped>` present → Skipped with its text, else `<failure>` present →
  Failure with its text, else Success; no such testcase is an error. -/
def TestRun.Result (parse : XmlParse) (tr : TestRun) (name : String) :
    Except String TestRunResult :=
  if tr.Response.Err ≠ "" ∧ tr.Response.Err ≠ "exit status 1" then
    Except.error tr.Response.Err
  else
    match parse tr.Response.Output with
    | none => Except.ok ⟨TestRunResultStatus.Success, ""⟩
    | some unmarshaled =>
      match unmarshaled.testSuites with
      | [ts] =>
        match ts.testCases.find? (fun v => v.name = name) with
        | none =>
          Except.error ("expected to find a testcase element with name \"" ++ name ++ "\"")
        | some tc =>
          match tc.skipped with
          | some s => Except.ok ⟨TestRunResultStatus.Skipped, s⟩
          | none =>
            match tc.failure with
            | some f => Except.ok ⟨TestRunResultStatus.Failure, f⟩
            | none => Except.ok ⟨TestRunResultStatus.Success, ""⟩
      | _ => Except.error "expected one testsuites element"

/-- Whether a reply is fatal: `TestRun.Result` returned a non-nil error. -/
def resultIsFatal (r : Except String TestRunResult) : Prop :=
  ∃ e, r = Except.error e

/- ### Reporters (src/client/output.go and the executor's sorted variant) -/

/-- A test as seen by the reporters: name and recorded runs (tags and the
file back-reference play no role in reporting). -/
structure RTest where
  name : String
  runs : List TestRun
deriving DecidableEq, Repr

/-- A test file as seen by the reporters. -/
structure RTestFile where
  name : String
  tests : List RTest
deriving DecidableEq, Repr

/-- Reporter outcome for one test in TAP form: the emitted lines, the next
value of the running index `i`, and the increments of the fatal and
failure counters. `none` models the index-out-of-range panic of
`t.Runs[0]` on a test with no runs. In the fatal branch the Go loop
`continue`s without executing `i += 1`, so the index is returned
unchanged there. -/
def tapTestLines (parse : XmlParse) (t : RTest) (i : Nat) :
    Option (List String × Nat × Nat × Nat) :=
  match t.runs.head? with
  | none => none
  | some run =>
    match TestRun.Result parse run t.name with
    | Except.error _ =>
      some (("not ok " ++ Nat.repr i ++ " " ++ t.name) ::
        ((goSplitStringNewline run.Response.Err).map (fun l => "#" ++ l) ++
         (goSplitStringNewline run.Response.Output).map (fun l => "#" ++ l)),
        i, 1, 0)
    | Except.ok res =>
      match res.Status with
      | TestRunResultStatus.Success =>
        some (["ok " ++ Nat.repr i ++ " " ++ t.name], i + 1, 0, 0)
      | TestRunResultStatus.Skipped =>
        if res.Output = "" then
          some (["ok " ++ Nat.repr i ++ " " ++ t.name ++ " # skip"], i + 1, 0, 0)
        else
          some (["ok " ++ Nat.repr i ++ " " ++ t.name ++ " # skip " ++ res.Output],
            i + 1, 0, 0)
      | TestRunResultStatus.Failure =>
        some (("not ok " ++ Nat.repr i ++ " " ++ t.name) ::
          (goSplitStringNewline res.Output).map (fun l => "#" ++ l),
          i + 1, 0, 1)

/-- The TAP loop over the tests of the files, threading the index and the
fatal/failure counters. -/
def tapTestsLines (parse : XmlParse) (ts : List RTest) (i : Nat) :
    Option (List String × Nat × Nat × Nat) :=
  match ts with
  | [] => some ([], i, 0, 0)
  | t :: rest =>
    match tapTestLines parse t i with
    | none => none
    | some (ls, i', fat, fl) =>
      match tapTestsLines parse rest i' with
      | none => none
      | some (ls', i'', fat', fl') => some (ls ++ ls', i'', fat + fat', fl + fl')

/-- The TAP loop over the files. -/
def tapFilesLines (parse : XmlParse) (fs : List RTestFile) (i : Nat) :
    Option (List String × Nat × Nat × Nat) :=
  match fs with
  | [] => some ([], i, 0, 0)
  | f :: rest =>
    match tapTestsLines parse f.tests i with
    | none => none
    | some (ls, i', fat, fl) =>
      match tapFilesLines parse rest i' with
      | none => none
      | some (ls', i'', fat', fl') => some (ls ++ ls', i'', fat + fat', fl + fl')

/-- `OutputTAPResults`: the header `1..N` (N counts every test in the
inventory), then the per-test lines, returning the printed lines and the
process exit code (0 iff no failure and no fatal was counted). -/
def OutputTAPResults (parse : XmlParse) (files : List RTestFile) :
    Option (List String × Nat) :=
  let numTests := (files.map (fun f => f.tests.length)).sum
  match tapFilesLines parse files 1 with
  | none => none
  | some (ls, _, numFatal, numFailed) =>
    some (("1.." ++ Nat.repr numTests) :: ls,
      if numFailed = 0 ∧ numFatal = 0 then 0 else 1)

/-- `allSuccess` (executor's output file): whether every test of the file
parses as Success or Skipped; stops at the first fatal or failing test.
`none` models the `t.Runs[0]` panic when a test with no runs is reached. -/
def allSuccess (parse : XmlParse) : List RTest → Option Bool
  | [] => some true
  | t :: ts =>
    match t.runs.head? with
    | none => none
    | some run =>
      match TestRun.Result parse run t.name with
      | Except.error _ => some false
      | Except.ok res =>
        if res.Status ≠ TestRunResultStatus.Success ∧
           res.Status ≠ TestRunResultStatus.Skipped then some false
        else allSuccess parse ts

/-- The comparator of the `sort.Slice` call in the executor's
`OutputBatsResults`: files whose tests all pass sort before files with
failures; ties are broken by ascending file name (Go's `<` on strings,
which agrees with Lean's `<` on ASCII). The `.getD false` default is
exercised only on inventories where `allSuccess` panics, on which the
reporter as a whole is modelled as `none` anyway. -/
def batsFileLessB (parse : XmlParse) (a b : RTestFile) : Bool :=
  let aAllPass := (allSuccess parse a.tests).getD false
  let bAllPass := (allSuccess parse b.tests).getD false
  if aAllPass && !bAllPass then true
  else if !aAllPass && bAllPass then false
  else goStringLess a.name b.name

/-- The comparator as a relation, for `List.insertionSort`. -/
def batsFileLess (parse : XmlParse) (a b : RTestFile) : Prop :=
  batsFileLessB parse a b = true

instance (parse : XmlParse) : DecidableRel (batsFileLess parse) :=
  fun a b => inferInstanceAs (Decidable (batsFileLessB parse a b = true))

/-- The pretty rendering of one test line group (the inner loop of
`OutputBatsResults`), returning lines and the increments of the
skipped/failure/fatal counters. -/
def prettyTestLines (parse : XmlParse) (t : RTest) :
    Option (List String × Nat × Nat × Nat) :=
  match t.runs.head? with
  | none => none
  | some run =>
    match TestRun.Result parse run t.name with
    | Except.error _ =>
      some (("  ✗ " ++ t.name) ::
        ((goSplitStringNewline run.Response.Err).map (fun l => "  " ++ l) ++
         (goSplitStringNewline run.Response.Output).map (fun l => "  " ++ l)),
        0, 0, 1)
    | Except.ok res =>
      match res.Status with
      | TestRunResultStatus.Success => some (["  ✓ " ++ t.name], 0, 0, 0)
      | TestRunResultStatus.Skipped =>
        if res.Output = "" then
          some (["  - " ++ t.name ++ " (skipped)"], 1, 0, 0)
        else
          some (["  - " ++ t.name ++ " (skipped: " ++ res.Output ++ ")"], 1, 0, 0)
      | TestRunResultStatus.Failure =>
        some (("  ✗ " ++ t.name) ::
          (goSplitStringNewline res.Output).map (fun l => "  " ++ l),
          0, 1, 0)

/-- The inner loop of `OutputBatsResults` over the tests of one expanded
file. -/
def prettyTestsLines (parse : XmlParse) : List RTest →
    Option (List String × Nat × Nat × Nat)
  | [] => some ([], 0, 0, 0)
  | t :: rest =>
    match prettyTestLines parse t with
    | none => none
    | some (ls, sk, fl, fat) =>
      match prettyTestsLines parse rest with
      | none => none
      | some (ls', sk', fl', fat') => some (ls ++ ls', sk + sk', fl + fl', fat + fat')

/-- The pretty rendering loop over files, in the order given (no sorting
here): a file whose tests all pass is one `<name> 100% PASSED` line;
otherwise a `<name>` header, the expanded test lines, and a blank line.
Returns the lines and the totals (tests, skipped, failures, fatals). -/
def prettyFilesLines (parse : XmlParse) : List RTestFile →
    Option (List String × Nat × Nat × Nat × Nat)
  | [] => some ([], 0, 0, 0, 0)
  | f :: rest =>
    match allSuccess parse f.tests with
    | none => none
    | some true =>
      match prettyFilesLines parse rest with
      | none => none
      | some (ls, n, sk, fl, fat) =>
        some ((f.name ++ " 100% PASSED") :: ls, f.tests.length + n, sk, fl, fat)
    | some false =>
      match prettyTestsLines parse f.tests with
      | none => none
      | some (ls, sk, fl, fat) =>
        match prettyFilesLines parse rest with
        | none => none
        | some (ls', n', sk', fl', fat') =>
          some (f.name :: ls ++ [""] ++ ls', f.tests.length + n', sk + sk',
            fl + fl', fat + fat')

/-- The pretty summary line and exit code given the totals. -/
def prettySummary (n fat fl sk : Nat) : List String × Nat :=
  let line :=
    if fat > 0 then
      Nat.repr n ++ " tests, " ++ Nat.repr fat ++ " fatal, " ++ Nat.repr fl ++
        " failures, " ++ Nat.repr sk ++ " skipped"
    else
      Nat.repr n ++ " tests, " ++ Nat.repr fl ++ " failures, " ++ Nat.repr sk ++ " skipped"
  ([line], if fl = 0 ∧ fat = 0 then 0 else 1)

/-- Pretty rendering of an inventory in the order given (the whole body of
the executor's `OutputBatsResults` after its `sort.Slice` call). -/
def renderBatsFiles (parse : XmlParse) (files : List RTestFile) :
    Option (List String × Nat) :=
  match prettyFilesLines parse files with
  | none => none
  | some (ls, n, sk, fl, fat) =>
    let s := prettySummary n fat fl sk
    some (ls ++ s.1, s.2)

/-- The executor's `OutputBatsResults`: sort the files — all-passing files
first, ties by ascending name (`sort.Slice`) — then render in the sorted
order. Sorting with a deterministic insertion sort agrees with Go's
unstable sort whenever no two files compare equal (in particular whenever
file names are distinct). -/
def OutputBatsResults (parse : XmlParse) (files : List RTestFile) :
    Option (List String × Nat) :=
  renderBatsFiles parse (files.insertionSort (batsFileLess parse))

/- ### Sandbox cache materialization (executor, DownloadAndUntar) -/

/-- The sandbox filesystem, as the set (list) of existing file paths;
directories are implicit in the paths of the files under them. -/
structure SandboxFS where
  paths : List String
deriving DecidableEq, Repr

/-- `DownloadAndUntar(dest = classDir/key, name = key)`, with the
downloader and the untar step abstracted: `dlOk` is whether the
`Download` call succeeds (writing `<dest>/<key>.tar`), `utOk` whether the
`tar xf` subprocess succeeds, and `extracted` the archive member paths it
creates under `dest`. Returns the resulting filesystem (or the error) and
the number of `Download` calls performed:

* if `<dest>/.downloaded` exists, return immediately (no download);
* otherwise remove the class directory subtree (`RemoveAll(dest/..)`),
  recreate `dest`, download the tar, untar in place, and finally create
  the empty `.downloaded` sentinel; a failure leaves no sentinel. -/
def DownloadAndUntar (dlOk utOk : Bool) (extracted : List String)
    (classDir key : String) (fs : SandboxFS) : Except String SandboxFS × Nat :=
  let dest := classDir ++ "/" ++ key
  let sentinelPath := dest ++ "/.downloaded"
  if fs.paths.contains sentinelPath then
    (Except.ok fs, 0)
  else
    let fs1 : SandboxFS := ⟨fs.paths.filter (fun p => ¬(classDir ++ "/").isPrefixOf p)⟩
    let tarDestPath := dest ++ "/" ++ key ++ ".tar"
    if dlOk then
      let fs2 : SandboxFS := ⟨tarDestPath :: fs1.paths⟩
      if utOk then
        let fs3 : SandboxFS := ⟨(extracted.map (fun e => dest ++ "/" ++ e)) ++ fs2.paths⟩
        (Except.ok ⟨sentinelPath :: fs3.paths⟩, 1)
      else
        (Except.error ("could not untar " ++ tarDestPath), 1)
    else
      (Except.error "download failed", 1)

/- ### SHA-256 (FIPS 180-4, as computed by Go's crypto/sha256) -/

/-- Tail-recursive list length (evaluates in constant stack on the
multi-kilobyte byte lists below). -/
def lenTR (l : List Nat) : Nat := l.foldl (fun n _ => n + 1) 0

/-- Tail-recursive list sum. -/
def sumTR (l : List Nat) : Nat := l.foldl (fun a b => a + b) 0

/-- The 32-bit all-ones mask; `x &&& m32` is reduction modulo 2^32. -/
def m32 : Nat := 0xffffffff

/-- Right rotation of a 32-bit word. -/
def rotr32 (n x : Nat) : Nat := ((x >>> n) ||| (x <<< (32 - n))) &&& m32

/-- FIPS 180-4 big Sigma 0. -/
def bSigma0 (x : Nat) : Nat := rotr32 2 x ^^^ rotr32 13 x ^^^ rotr32 22 x

/-- FIPS 180-4 big Sigma 1. -/
def bSigma1 (x : Nat) : Nat := rotr32 6 x ^^^ rotr32 11 x ^^^ rotr32 25 x

/-- FIPS 180-4 small sigma 0. -/
def sSigma0 (x : Nat) : Nat := rotr32 7 x ^^^ rotr32 18 x ^^^ (x >>> 3)

/-- FIPS 180-4 small sigma 1. -/
def sSigma1 (x : Nat) : Nat := rotr32 17 x ^^^ rotr32 19 x ^^^ (x >>> 10)

/-- FIPS 180-4 `Ch` (the complement is `xor` with the 32-bit mask). -/
def shaCh (x y z : Nat) : Nat := (x &&& y) ^^^ ((x ^^^ m32) &&& z)

/-- FIPS 180-4 `Maj`. -/
def shaMaj (x y z : Nat) : Nat := (x &&& y) ^^^ (x &&& z) ^^^ (y &&& z)

/-- The 64 SHA-256 round constants. -/
def shaK : List Nat :=
  [1116352408, 1899447441, 3049323471, 3921009573, 961987163, 1508970993,
   2453635748, 2870763221, 3624381080, 310598401, 607225278, 1426881987,
   1925078388, 2162078206, 2614888103, 3248222580, 3835390401, 4022224774,
   264347078, 604807628, 770255983, 1249150122, 1555081692, 1996064986,
   2554220882, 2821834349, 2952996808, 3210313671, 3336571891, 3584528711,
   113926993, 338241895, 666307205, 773529912, 1294757372, 1396182291,
   1695183700, 1986661051, 2177026350, 2456956037, 2730485921, 2820302411,
   3259730800, 3345764771, 3516065817, 3600352804, 4094571909, 275423344,
   430227734, 506948616, 659060556, 883997877, 958139571, 1322822218,
   1537002063, 1747873779, 1955562222, 2024104815, 2227730452, 2361852424,
   2428436474, 2756734187, 3204031479, 3329325298]

/-- Pack a list of 32-bit words into one `Nat`, first word most
significant. Word and byte sequences are packed into a single big-endian
`Nat` throughout this SHA-256 so that the kernel can evaluate the hash of
multi-kilobyte inputs by large-integer arithmetic. -/
def packWordsBE (ws : List Nat) : Nat := ws.foldl (fun a w => (a <<< 32) ||| w) 0

/-- The round constants, packed. -/
def shaKPacked : Nat := packWordsBE shaK

/-- Round constant `K_t`, read out of the packed constant. -/
def kAt (t : Nat) : Nat := (shaKPacked >>> (32 * (63 - t))) &&& m32

/-- Mask keeping the low 15 words of a 16-word schedule window. -/
def mask480 : Nat := (1 <<< 480) - 1

/-- Force a `Nat` to a literal before continuing (keeps kernel reduction
of the loops below shallow). -/
def forceN {A : Sort _} (n : Nat) (k : Nat → A) : A :=
  Nat.casesOn n (k 0) (fun m => k (m + 1))

/-- The 64 SHA-256 rounds, fused with the message-schedule recurrence.
`w` is the sliding window holding the 16 schedule words `W_t .. W_{t+15}`
packed big-endian (so `w >>> 480` is `W_t`); one step performs round
`t = 64 - fuel` on the working variables `a .. h` and pushes
`W_{t+16} = s1(W_{t+14}) + W_{t+9} + s0(W_{t+1}) + W_t` into
the window. The base case returns the working variables packed into one
256-bit `Nat`. -/
def shaRounds : Nat → Nat → Nat → Nat → Nat → Nat → Nat → Nat → Nat → Nat → Nat :=
  Nat.rec
    (fun _ a b c d e f g h =>
      (a <<< 224) ||| (b <<< 192) ||| (c <<< 160) ||| (d <<< 128) |||
      (e <<< 96) ||| (f <<< 64) ||| (g <<< 32) ||| h)
    (fun fuel ih w a b c d e f g h =>
      let wt := w >>> 480
      let t1 := (h + bSigma1 e + shaCh e f g + kAt (63 - fuel) + wt) &&& m32
      let t2 := (bSigma0 a + shaMaj a b c) &&& m32
      ih (((w &&& mask480) <<< 32) |||
            ((sSigma1 ((w >>> 32) &&& m32) + ((w >>> 192) &&& m32) +
              sSigma0 ((w >>> 448) &&& m32) + wt) &&& m32))
        ((t1 + t2) &&& m32) a b c ((d + t1) &&& m32) e f g)

/-- One SHA-256 compression: run the 64 rounds on block `B` (one 512-bit
packed `Nat`) from state `H` (256-bit packed) and add the result back
into the state wordwise modulo 2^32 (masking after the addition is
addition of the 32-bit words modulo 2^32). -/
def shaBlock (H B : Nat) : Nat :=
  forceN (shaRounds 64 B ((H >>> 224) &&& m32) ((H >>> 192) &&& m32)
      ((H >>> 160) &&& m32) ((H >>> 128) &&& m32) ((H >>> 96) &&& m32)
      ((H >>> 64) &&& m32) ((H >>> 32) &&& m32) (H &&& m32)) (fun S =>
    (((((H >>> 224) + (S >>> 224)) &&& m32) <<< 224) |||
     ((((H >>> 192) + (S >>> 192)) &&& m32) <<< 192) |||
     ((((H >>> 160) + (S >>> 160)) &&& m32) <<< 160) |||
     ((((H >>> 128) + (S >>> 128)) &&& m32) <<< 128) |||
     ((((H >>> 96) + (S >>> 96)) &&& m32) <<< 96) |||
     ((((H >>> 64) + (S >>> 64)) &&& m32) <<< 64) |||
     ((((H >>> 32) + (S >>> 32)) &&& m32) <<< 32) |||
     (((H + S) &&& m32))))

/-- The SHA-256 initial hash value, packed. -/
def shaH0Packed : Nat :=
  packWordsBE [0x6a09e667, 0xbb67ae85, 0x3c6ef372, 0xa54ff53a,
               0x510e527f, 0x9b05688c, 0x1f83d9ab, 0x5be0cd19]

/-- Compress the `nb` 512-bit blocks of the packed padded message `V`,
most significant block first. -/
def shaBlocksLoop : Nat → Nat → Nat → Nat :=
  Nat.rec (fun _ H => H)
    (fun nb ih V H =>
      forceN (shaBlock H (V >>> (512 * nb))) (fun Hn =>
        forceN (V &&& ((1 <<< (512 * nb)) - 1)) (fun Vn => ih Vn Hn)))

/-- Pack a byte list big-endian, returning its length and its value. -/
def packBytesStep (p : Nat × Nat) (b : Nat) : Nat × Nat :=
  forceN ((p.2 <<< 8) ||| b) (fun v => forceN (p.1 + 1) (fun n => (n, v)))

/-- Fuel-driven packing loop (`Nat.rec` keeps the tail call in head
position, so the kernel evaluates it in constant stack); when the fuel
runs out the rest of the list is folded directly, so the function is
total and is extensionally just the big-endian packing fold. -/
def packBytesGo : Nat → List Nat → Nat × Nat → Nat × Nat :=
  Nat.rec (motive := fun _ => List Nat → Nat × Nat → Nat × Nat)
    (fun l p => l.foldl packBytesStep p)
    (fun _ ih l p =>
      List.casesOn l p (fun b bs =>
        forceN ((p.2 <<< 8) ||| b) (fun v =>
          forceN (p.1 + 1) (fun n => ih bs (n, v)))))

/-- Pack a byte list big-endian, returning its length and its value. -/
def packBytesBE (l : List Nat) : Nat × Nat :=
  packBytesGo 16777216 l (0, 0)

/-- The SHA-256 digest of a byte sequence, as one packed 256-bit `Nat`:
pad with `0x80`, zeros to 56 mod 64, and the bit length as eight
big-endian bytes (all performed arithmetically on the packed message),
then compress block by block. -/
def sha256Digest (msg : List Nat) : Nat :=
  match packBytesBE msg with
  | (l, v) =>
    let k := (119 - l % 64) % 64
    let pv := (((v <<< 8) ||| 128) <<< (8 * (k + 8))) + 8 * l
    shaBlocksLoop ((l + 1 + k + 8) / 64) pv shaH0Packed

/-- SHA-256 of a byte sequence, as its 32 digest bytes.  The digest is
forced to a literal once before the bytes are read out of it. -/
def sha256 (msg : List Nat) : List Nat :=
  forceN (sha256Digest msg) (fun d =>
    (List.range 32).map (fun j => (d >>> (8 * (31 - j))) &&& 255))

/- ### Base32 hex encoding (Go's encoding/base32 HexEncoding) -/

/-- The "Extended Hex" base32 alphabet of RFC 4648, used by Go's
`base32.HexEncoding`. -/
def base32HexAlphabet : List Char := "0123456789ABCDEFGHIJKLMNOPQRSTUV".data

/-- The eight bits of a byte, most significant first. -/
def byteBits (b : Nat) : List Bool := (List.range 8).map (fun i => b.testBit (7 - i))

/-- Split a bit list into `n` chunks of five bits, zero-padding the last. -/
def chunk5Pad : Nat → List Bool → List (List Bool)
  | 0, _ => []
  | n + 1, l =>
    (l.take 5 ++ List.replicate (5 - (l.take 5).length) false) :: chunk5Pad n (l.drop 5)

/-- The value of a bit list, most significant bit first. -/
def bitsVal (bs : List Bool) : Nat :=
  bs.foldl (fun a b => 2 * a + (if b then 1 else 0)) 0

/-- `base32.HexEncoding.EncodeToString`: 5-bit groups of the byte string,
mapped through the extended-hex alphabet, `=`-padded to a multiple of
eight characters. -/
def base32HexEncode (bytes : List Nat) : String :=
  let bits := bytes.flatMap byteBits
  let chars := (chunk5Pad ((lenTR (bytes.map (fun _ => 0)) * 8 + 4) / 5) bits).map
    (fun c => base32HexAlphabet.getD (bitsVal c) '0')
  String.mk (chars ++ List.replicate ((8 - chars.length % 8) % 8) '=')

/- ### Tar archive bytes (Go's archive/tar writer, USTAR headers) -/

/-- The ASCII bytes of a string. -/
def asciiBytes (s : String) : List Nat := s.data.map Char.toNat

/-- The tar formatter's `formatString`: the bytes of `s`, zero-padded to
the field width (the terminating NUL is part of the zero padding). -/
def tarFormatString (width : Nat) (s : List Nat) : List Nat :=
  s ++ List.replicate (width - s.length) 0

/-- The ASCII octal digits of a number (most significant first). -/
def tarOctalDigits (x : Nat) : List Nat := (Nat.toDigits 8 x).map Char.toNat

/-- The tar formatter's `formatOctal`: octal digits left-padded with `0` to
width − 1, then a terminating NUL (via `formatString`). -/
def tarFormatOctal (width x : Nat) : List Nat :=
  let s := tarOctalDigits x
  let s := if width - s.length - 1 > 0 then
    List.replicate (width - s.length - 1) 48 ++ s else s
  tarFormatString width s

/-- A USTAR header block before checksum insertion: the checksum field
holds eight spaces (as `ComputeChecksum` treats it). Field layout per
archive/tar: name 100, mode 8, uid 8, gid 8, size 12, mtime 12 (a zero
`ModTime` is written as epoch 0), checksum 8, typeflag 1, linkname 100,
magic `ustar\0`, version `00`, uname 32, gname 32, devmajor 8,
devminor 8, prefix 155, then zero padding to 512 bytes. -/
def tarHeaderPre (name : List Nat) (mode size typeflag : Nat) : List Nat :=
  tarFormatString 100 name ++ tarFormatOctal 8 mode ++ tarFormatOctal 8 0 ++
  tarFormatOctal 8 0 ++ tarFormatOctal 12 size ++ tarFormatOctal 12 0 ++
  List.replicate 8 32 ++ [typeflag] ++ tarFormatString 100 [] ++
  asciiBytes "ustar" ++ [0] ++ asciiBytes "00" ++ tarFormatString 32 [] ++
  tarFormatString 32 [] ++ tarFormatOctal 8 0 ++ tarFormatOctal 8 0 ++
  tarFormatString 155 [] ++ List.replicate 12 0

/-- A complete USTAR header block: the checksum (byte sum of the block
with the checksum field read as spaces) is written as six zero-padded
octal digits, a NUL, then a space (`formatOctal` into the first seven
bytes of the field, then `field[7] = ' '`). -/
def tarHeaderBlock (name : List Nat) (mode size typeflag : Nat) : List Nat :=
  let pre := tarHeaderPre name mode size typeflag
  pre.take 148 ++ (tarFormatOctal 7 (sumTR pre) ++ [32]) ++ pre.drop 156

/-- Zero padding of file data to the 512-byte block boundary. -/
def tarPad512 (n : Nat) : Nat := (512 - n % 512) % 512

/-- The bytes the dolt-archive writing in `BuildTestsFile` produces: a
directory header `bin/` (typeflag `5`, mode 0777), a file header
`bin/dolt` (typeflag `0`, mode 0777, the binary's size), the binary's
bytes padded to a block, and the two zero trailer blocks written by
`Close`. -/
def goDoltTarBytes (doltBin : List Nat) : List Nat :=
  tarHeaderBlock (asciiBytes "bin/") 511 0 53 ++
  tarHeaderBlock (asciiBytes "bin/dolt") 511 (lenTR doltBin) 48 ++
  doltBin ++ List.replicate (tarPad512 (lenTR doltBin)) 0 ++
  List.replicate 1024 0

/-- Likewise for the remotesrv archive: `bin/` and `bin/remotesrv`. -/
def goRemotesrvTarBytes (bin : List Nat) : List Nat :=
  tarHeaderBlock (asciiBytes "bin/") 511 0 53 ++
  tarHeaderBlock (asciiBytes "bin/remotesrv") 511 (lenTR bin) 48 ++
  bin ++ List.replicate (tarPad512 (lenTR bin)) 0 ++
  List.replicate 1024 0

/- ### Artifact keys (BuildTestsFile) -/

/-- A built archive: its upload key (the archive file's base name without
`.tar`) and the archive's own tar bytes. -/
structure BuiltArtifact where
  key : String
  bytes : List Nat
deriving DecidableEq, Repr

/-- The dolt archive produced by `BuildTestsFile` from the compiled dolt
binary's bytes: the code hashes the BINARY (`io.Copy(doltHash, f)` on
`doltBinFilePath`), names the archive `<base32hex(sha256(binary))>.tar`,
and then writes the tar (headers `bin/`, `bin/dolt` plus content) at that
path. -/
def buildDoltArtifact (doltBin : List Nat) : BuiltArtifact :=
  ⟨base32HexEncode (sha256 doltBin), goDoltTarBytes doltBin⟩

/-- The remotesrv archive: same scheme, hashing the remotesrv binary. -/
def buildBinArtifact (bin : List Nat) : BuiltArtifact :=
  ⟨base32HexEncode (sha256 bin), goRemotesrvTarBytes bin⟩

/-- The bats-tests archive: `BuildTestsFile` first writes the tests tar to
a temporary path, hashes THAT tar's bytes, and copies it byte for byte to
`<base32hex(sha256(tar))>.tar`. -/
def buildBatsArtifact (batsTar : List Nat) : BuiltArtifact :=
  ⟨base32HexEncode (sha256 batsTar), batsTar⟩

/- ### Claim-side condition definitions and concrete fixtures -/

/-- The parser's infrastructure-error condition: a non-empty reply error
different from `"exit status 1"`. -/
def replyInfraErr (tr : TestRun) : Prop :=
  tr.Response.Err ≠ "" ∧ tr.Response.Err ≠ "exit status 1"

/-- The reply's output parsed but with other than exactly one testsuite. -/
def parsedSuitesNotOne (parse : XmlParse) (tr : TestRun) : Prop :=
  ∃ r, parse tr.Response.Output = some r ∧ r.testSuites.length ≠ 1

/-- The reply's output parsed with exactly one testsuite, but no testcase
in it is named `name`. -/
def parsedNoCase (parse : XmlParse) (tr : TestRun) (name : String) : Prop :=
  ∃ r ts, parse tr.Response.Output = some r ∧ r.testSuites = [ts] ∧
    ts.testCases.find? (fun v => v.name = name) = none

/-- A parser fixture for reporter evaluations: the string `"<xmlB>"`
unmarshals to one testsuite with one passing testcase named `b`; every
other string fails to parse. -/
def parseOnlyXmlB : XmlParse :=
  fun s => if s = "<xmlB>" then some ⟨[⟨[⟨"b", none, none⟩]⟩]⟩ else none

/-- A parser fixture under which every reply parses to one testsuite with
one passing testcase named `t`. -/
def parseAlwaysPassT : XmlParse :=
  fun _ => some ⟨[⟨[⟨"t", none, none⟩]⟩]⟩

/-- A two-test inventory whose first test is fatal (reply error `boom`)
and whose second is a pass: the failing input for the TAP index claim. -/
def tapFatalInventory : List RTestFile :=
  [⟨"f.bats", [⟨"a", [⟨⟨"", "boom"⟩⟩]⟩, ⟨"b", [⟨⟨"<xmlB>", ""⟩⟩]⟩]⟩]

/-- A two-file inventory of all-passing files named `b` then `a` (one
passing test each): under `parseAlwaysPassT` the sorted pretty reporter
prints `a` before `b`. -/
def twoFilesBA : List RTestFile :=
  [⟨"b", [⟨"t", [⟨⟨"", ""⟩⟩]⟩]⟩, ⟨"a", [⟨"t", [⟨⟨"", ""⟩⟩]⟩]⟩]

/-- An inventory with a single test that has no recorded runs. -/
def zeroRunInventory : List RTestFile := [⟨"f.bats", [⟨"t", []⟩]⟩]

/- ### Theorems -/


/-- A line recognized as an `@test "` line can never also carry the
`# bats test_tags=` marker (their first characters differ). -/
theorem test_not_tag {l : List Char} (h : testMarker <+: l) : ¬ tagMarker <+: l := by
  intro hc
  rcases h with ⟨t, rfl⟩
  rcases hc with ⟨u, hu⟩
  simp [tagMarker, testMarker] at hu

/-- The scanner emits exactly one test per recognized `@test "` line. -/
theorem loadTestsLoop_length (lines : List (List Char)) :
    ∀ tags, (loadTestsLoop tags lines).length = countTestLines lines := by
  induction lines with
  | nil => intro tags; rfl
  | cons l rest ih =>
    intro tags
    by_cases h1 : tagMarker <+: l
    · have h2 : ¬ testMarker <+: l := fun hw => test_not_tag hw h1
      simp [loadTestsLoop, countTestLines, h1, h2, List.countP_cons, ih, countTestLines.eq_1]
    · by_cases h2 : testMarker <+: l
      · simp [loadTestsLoop, countTestLines, h1, h2, List.countP_cons]
        have := ih []
        simp [countTestLines] at this
        omega
      · simp [loadTestsLoop, countTestLines, h1, h2, List.countP_cons]
        have := ih tags
        simp [countTestLines] at this
        omega

/-- Positional characterization of the scanner loop: the test emitted for
a given `@test "` line carries the trimmed name from that line and the
pending tags accumulated over the preceding lines. -/
theorem loadTestsLoop_get (pre : List (List Char)) :
    ∀ tags tl post, testMarker <+: tl →
    (loadTestsLoop tags (pre ++ tl :: post))[countTestLines pre]? =
      some ⟨goTrimRight testTrimCutset (tl.drop testMarker.length), pendingTags tags pre⟩ := by
  induction pre with
  | nil =>
    intro tags tl post h
    have h1 : ¬ tagMarker <+: tl := test_not_tag h
    simp [loadTestsLoop, countTestLines, pendingTags, h, h1]
  | cons l rest ih =>
    intro tags tl post h
    by_cases h1 : tagMarker <+: l
    · have h2 : ¬ testMarker <+: l := fun hw => test_not_tag hw h1
      simp [loadTestsLoop, countTestLines, List.countP_cons, pendingTags, h1, h2]
      simpa [countTestLines, pendingTags] using ih (goSplitChar ' ' (l.drop tagMarker.length)) tl post h
    · by_cases h2 : testMarker <+: l
      · simp [loadTestsLoop, countTestLines, List.countP_cons, pendingTags, h1, h2]
        simpa [countTestLines, pendingTags] using ih [] tl post h
      · simp [loadTestsLoop, countTestLines, List.countP_cons, pendingTags, h1, h2]
        simpa [countTestLines, pendingTags] using ih tags tl post h

/-- When the test name does not end in `\"`, space or `{`, trimming the
closing `\" {` off the declaration line recovers the name exactly. -/
theorem goTrimRight_close (name : List Char)
    (h : ∀ c, name.reverse.head? = some c → c ∉ testTrimCutset) :
    goTrimRight testTrimCutset (name ++ ['"', ' ', '{']) = name := by
  unfold goTrimRight
  rw [List.reverse_append]
  have hrev : (['"', ' ', '{'] : List Char).reverse = ['{', ' ', '"'] := by decide
  rw [hrev]
  have hd : List.dropWhile (fun c => decide (c ∈ testTrimCutset)) name.reverse = name.reverse := by
    cases hr : name.reverse with
    | nil => rfl
    | cons c cs =>
      have hc := h c (by rw [hr]; rfl)
      simp [List.dropWhile_cons, hc]
  have m1 : '{' ∈ testTrimCutset := by decide
  have m2 : ' ' ∈ testTrimCutset := by decide
  have m3 : '"' ∈ testTrimCutset := by decide
  simp [List.dropWhile_cons, m1, m2, m3, hd]

/-- Claim C6, counterexample: scanning the line `@test "a{" {` emits a
test named `a`, not the literal quoted string `a{` — `strings.TrimRight`
removes ALL trailing characters of the cutset `\" {`, so the claim that
the scanner preserves every name, including names ending in `{`, `\"` or
a space, is false. -/
theorem c6_scanner_name_counterexample :
    (LoadTests [testDeclLine ['a', '{']]).map ScannedTest.name = [['a']] ∧
      (['a'] : List Char) ≠ ['a', '{'] := by decide

/-- Claim C6 (amended): for every source line `@test "<name>" {` whose
name does not END in `\"`, space or `{`, the scanner emits a Test whose
name is exactly the literal quoted string; in general the emitted name is
the quoted string with all trailing `\"`/space/`{` characters removed. -/
theorem c6_scanner_name_amended (pre post : List (List Char)) (name : List Char)
    (h : ∀ c, name.reverse.head? = some c → c ∉ testTrimCutset) :
    (LoadTests (pre ++ testDeclLine name :: post))[countTestLines pre]? =
      some ⟨name, pendingTags [] pre⟩ := by
  have hp : testMarker <+: testDeclLine name :=
    ⟨name ++ ['"', ' ', '{'], by simp [testDeclLine]⟩
  have hmain := loadTestsLoop_get pre [] (testDeclLine name) post hp
  have hdrop : (testDeclLine name).drop testMarker.length = name ++ ['"', ' ', '{'] := by
    simp [testDeclLine, List.drop_left]
  rw [LoadTests]
  rw [hmain, hdrop, goTrimRight_close name h]

/-- Claim C7: every test emitted by the scanner carries as its tags
exactly the space-split payload of the most recent `# bats test_tags=`
line seen after the previously emitted `@test` line, and empty if there
is none: `pendingTags` (the scanner state) is replaced by a later tag
line and reset by an `@test` line, each test line emits exactly one test,
and the test at position `countTestLines pre` carries `pendingTags [] pre`. -/
theorem c7_pending_tags :
    (∀ pre tl post, testMarker <+: tl →
      (LoadTests (pre ++ tl :: post))[countTestLines pre]? =
        some ⟨goTrimRight testTrimCutset (tl.drop testMarker.length), pendingTags [] pre⟩)
    ∧ (∀ lines, (LoadTests lines).length = countTestLines lines)
    ∧ (∀ pre rest, pendingTags [] (pre ++ [tagMarker ++ rest]) = goSplitChar ' ' rest)
    ∧ (∀ pre name, pendingTags [] (pre ++ [testDeclLine name]) = [])
    ∧ pendingTags [] [] = [] := by
  refine ⟨fun pre tl post h => loadTestsLoop_get pre [] tl post h,
          fun lines => loadTestsLoop_length lines [], ?_, ?_, rfl⟩
  · intro pre rest
    rw [pendingTags, List.foldl_append]
    simp [List.prefix_append, List.drop_left]
  · intro pre name
    have h2 : ¬ tagMarker <+: (testMarker ++ (name ++ ['"', ' ', '{'])) :=
      test_not_tag (List.prefix_append _ _)
    rw [pendingTags, List.foldl_append]
    simp [testDeclLine, h2, List.prefix_append]

/-- Witness for the amended claim C6 at the concrete line `@test "t1" {`. -/
theorem c6_scanner_name_amended_witness :
    (LoadTests [testDeclLine ['t', '1']])[0]? = some ⟨['t', '1'], []⟩ := by
  have h := c6_scanner_name_amended [] [] ['t', '1']
    (by intro c hc; simp at hc; subst hc; decide)
  simpa [countTestLines, pendingTags] using h

/-- Witness for claim C7: with two tag lines before the test, the later
one (`a b`, split on single spaces) wins. -/
theorem c7_pending_tags_witness :
    (LoadTests [tagMarker ++ ['x'], tagMarker ++ ['a', ' ', 'b'], testDeclLine ['t']])[0]? =
      some ⟨['t'], [['a'], ['b']]⟩ := by
  have h := c7_pending_tags.1 [tagMarker ++ ['x'], tagMarker ++ ['a', ' ', 'b']]
    (testDeclLine ['t']) [] (by decide)
  exact (by decide : (countTestLines [tagMarker ++ ['x'], tagMarker ++ ['a', ' ', 'b']]) = 0) ▸
    h |>.trans (by decide)

/-- Lexing an escaped metacharacter yields its literal token. -/
theorem lexRegexBody_esc (d : Char) (rest : List Char) (hd : d ∈ regexMetaChars) :
    lexRegexBody ('\\' :: d :: rest) =
      (lexRegexBody rest).map (fun ts => RegexTok.lit d :: ts) := by
  simp [lexRegexBody, hd]

/-- Lexing an ordinary (non-meta) character yields its literal token. -/
theorem lexRegexBody_lit (c : Char) (rest : List Char) (h3 : c ∉ regexMetaChars) :
    lexRegexBody (c :: rest) =
      (lexRegexBody rest).map (fun ts => RegexTok.lit c :: ts) := by
  have h1 : ¬ c = '\\' := fun hc => h3 (by rw [hc]; decide)
  have h2 : ¬ c = '.' := fun hc => h3 (by rw [hc]; decide)
  unfold lexRegexBody
  rw [if_neg h1, if_neg h2, if_neg h3]
  exact congrArg _ (lexRegexBody.eq_def rest)

/-- The two `ReplaceAll` passes of the escaper act per character. -/
theorem escape_eq_flatMap (l : List Char) :
    goReplaceAllChar (goReplaceAllChar l '(' ['\\', '(']) '+' ['\\', '+'] =
      l.flatMap escChar := by
  induction l with
  | nil => rfl
  | cons c cs ih =>
    have step : goReplaceAllChar (goReplaceAllChar (c :: cs) '(' ['\\', '(']) '+' ['\\', '+'] =
        ((if c = '(' then ['\\', '('] else [c]).flatMap
            (fun d => if d = '+' then ['\\', '+'] else [d])) ++
          goReplaceAllChar (goReplaceAllChar cs '(' ['\\', '(']) '+' ['\\', '+'] := by
      simp [goReplaceAllChar, List.flatMap_append]
    rw [List.flatMap_cons, step, ih]
    congr 1
    by_cases h1 : c = '('
    · subst h1; simp [escChar]
    · by_cases h2 : c = '+'
      · subst h2; simp [escChar]
      · simp [escChar, h1, h2]

/-- Escaping a name free of metacharacters other than `(` and `+` lexes
to the name's characters as literal tokens. -/
theorem lex_escape (l : List Char)
    (h : ∀ c ∈ l, c ∉ regexMetaChars ∨ c = '(' ∨ c = '+') :
    lexRegexBody (l.flatMap escChar) = some (l.map RegexTok.lit) := by
  induction l with
  | nil => rfl
  | cons c cs ih =>
    have hcs : ∀ x ∈ cs, x ∉ regexMetaChars ∨ x = '(' ∨ x = '+' :=
      fun x hx => h x (List.mem_cons_of_mem c hx)
    rw [List.flatMap_cons]
    rcases h c (List.mem_cons_self c cs) with hm | rfl | rfl
    · have he : escChar c = [c] := by
        have hp : ¬ c = '(' := fun hc => hm (by rw [hc]; decide)
        have hq : ¬ c = '+' := fun hc => hm (by rw [hc]; decide)
        simp [escChar, hp, hq]
      rw [he]
      show lexRegexBody (c :: cs.flatMap escChar) = _
      rw [lexRegexBody_lit c _ hm, ih hcs]
      rfl
    · have he : escChar '(' = ['\\', '('] := by decide
      rw [he]
      show lexRegexBody ('\\' :: '(' :: cs.flatMap escChar) = _
      rw [lexRegexBody_esc '(' _ (by decide), ih hcs]
      rfl
    · have he : escChar '+' = ['\\', '+'] := by decide
      rw [he]
      show lexRegexBody ('\\' :: '+' :: cs.flatMap escChar) = _
      rw [lexRegexBody_esc '+' _ (by decide), ih hcs]
      rfl

/-- A sequence of literal tokens matches exactly one string. -/
theorem lit_toks_match (l : List Char) :
    ∀ s : List Char, regexToksMatch (l.map RegexTok.lit) s = true ↔ s = l := by
  induction l with
  | nil =>
    intro s
    cases s <;> simp [regexToksMatch]
  | cons c cs ih =>
    intro s
    cases s with
    | nil => simp [regexToksMatch]
    | cons d ds =>
      simp only [List.map_cons, regexToksMatch, Bool.and_eq_true, regexTokMatches,
        decide_eq_true_eq]
      rw [ih ds]
      constructor
      · rintro ⟨h1, h2⟩
        rw [h1, h2]
      · intro he
        injection he with h1 h2
        exact ⟨h1.symm, h2⟩

/-- Parsing `^<body>$` strips the anchors and lexes the body. -/
theorem parseAnchoredRegexData_shape (body : List Char) :
    parseAnchoredRegexData ('^' :: (body ++ ['$'])) = lexRegexBody body := by
  simp [parseAnchoredRegexData]

/-- Claim C5 (amended): for every test name containing no RE2
metacharacter other than `(` and `+`, the escaped filter begins with `^`,
ends with `$`, and — as a regular expression — matches exactly the name
and no other string. (As stated, over all names without newline or
double quote, the claim is false: unescaped metacharacters such as `.`
keep their regex meaning.) -/
theorem c5_escape_amended (n : String)
    (h : ∀ c ∈ n.data, c ∉ regexMetaChars ∨ c = '(' ∨ c = '+') :
    (EscapeNameForFilter n).data.head? = some '^' ∧
    (EscapeNameForFilter n).data.getLast? = some '$' ∧
    parseAnchoredRegex (EscapeNameForFilter n) = some (n.data.map RegexTok.lit) ∧
    ∀ s : String, regexToksMatch (n.data.map RegexTok.lit) s.data = true ↔ s = n := by
  have hdata : (EscapeNameForFilter n).data = '^' :: (n.data.flatMap escChar ++ ['$']) := by
    show (String.mk ('^' :: goReplaceAllChar (goReplaceAllChar n.data '(' _) '+' _ ++ ['$'])).data = _
    rw [escape_eq_flatMap]
    rfl
  refine ⟨by rw [hdata]; rfl, ?_, ?_, ?_⟩
  · rw [hdata]
    rw [show ('^' :: (n.data.flatMap escChar ++ ['$'])) =
          (('^' :: n.data.flatMap escChar) ++ ['$']) from rfl]
    exact List.getLast?_concat _
  · rw [parseAnchoredRegex, hdata, parseAnchoredRegexData_shape]
    exact lex_escape n.data h
  · intro s
    rw [lit_toks_match n.data s.data]
    exact ⟨fun hs => String.ext hs, fun hs => by rw [hs]⟩

/-- Claim C5, counterexample: the name `a.c` contains neither newline nor
double quote, yet its escaped filter `^a.c$` also matches the different
string `abc`, because the escaper leaves `.` unescaped. -/
theorem c5_escape_counterexample :
    anchoredRegexMatches (EscapeNameForFilter "a.c") "abc" = some true ∧
    ("abc" : String) ≠ "a.c" ∧
    ("a.c".data.contains '\n' = false) ∧ ("a.c".data.contains '"' = false) := by
  refine ⟨?_, by decide, by decide, by decide⟩
  rfl

/-- Witness for the amended claim C5 at the concrete name `a(b+c`. -/
theorem c5_escape_amended_witness :
    (EscapeNameForFilter "a(b+c").data.head? = some '^' ∧
    (EscapeNameForFilter "a(b+c").data.getLast? = some '$' ∧
    parseAnchoredRegex (EscapeNameForFilter "a(b+c") =
      some ("a(b+c".data.map RegexTok.lit) ∧
    ∀ s : String, regexToksMatch ("a(b+c".data.map RegexTok.lit) s.data = true ↔
      s = "a(b+c" :=
  c5_escape_amended "a(b+c" (by decide)

/-- `TestRun.Result` on an infrastructure error returns that error text. -/
theorem Result_infra (parse : XmlParse) (tr : TestRun) (name : String)
    (h : replyInfraErr tr) :
    TestRun.Result parse tr name = Except.error tr.Response.Err := by
  unfold TestRun.Result
  rw [if_pos (show tr.Response.Err ≠ "" ∧ tr.Response.Err ≠ "exit status 1" from h)]

/-- `TestRun.Result` on an unmarshal failure returns the zero result with
a NIL error. -/
theorem Result_noparse (parse : XmlParse) (tr : TestRun) (name : String)
    (h1 : ¬ replyInfraErr tr) (hp : parse tr.Response.Output = none) :
    TestRun.Result parse tr name = Except.ok ⟨TestRunResultStatus.Success, ""⟩ := by
  unfold TestRun.Result
  rw [if_neg (show ¬(tr.Response.Err ≠ "" ∧ tr.Response.Err ≠ "exit status 1") from h1), hp]

/-- `TestRun.Result` with other than one testsuite returns the
corresponding error. -/
theorem Result_not_one (parse : XmlParse) (tr : TestRun) (name : String) (r : JUnitReport)
    (h1 : ¬ replyInfraErr tr) (hp : parse tr.Response.Output = some r)
    (hs : r.testSuites.length ≠ 1) :
    TestRun.Result parse tr name = Except.error "expected one testsuites element" := by
  obtain ⟨suites⟩ := r
  unfold TestRun.Result
  rw [if_neg (show ¬(tr.Response.Err ≠ "" ∧ tr.Response.Err ≠ "exit status 1") from h1), hp]
  rcases suites with _ | ⟨a, _ | ⟨b, m⟩⟩
  · rfl
  · exact absurd rfl hs
  · rfl

/-- `TestRun.Result` with exactly one testsuite classifies by the first
testcase whose name matches. -/
theorem Result_one (parse : XmlParse) (tr : TestRun) (name : String)
    (r : JUnitReport) (ts : JUnitTestSuite)
    (h1 : ¬ replyInfraErr tr) (hp : parse tr.Response.Output = some r)
    (hs : r.testSuites = [ts]) :
    TestRun.Result parse tr name =
      (match ts.testCases.find? (fun v => v.name = name) with
       | none =>
         Except.error ("expected to find a testcase element with name \"" ++ name ++ "\"")
       | some tc =>
         match tc.skipped with
         | some s => Except.ok ⟨TestRunResultStatus.Skipped, s⟩
         | none =>
           match tc.failure with
           | some f => Except.ok ⟨TestRunResultStatus.Failure, f⟩
           | none => Except.ok ⟨TestRunResultStatus.Success, ""⟩) := by
  obtain ⟨suites⟩ := r
  have hs2 : suites = [ts] := hs
  subst hs2
  unfold TestRun.Result
  rw [if_neg (show ¬(tr.Response.Err ≠ "" ∧ tr.Response.Err ≠ "exit status 1") from h1), hp]

/-- Claim C1 (amended): the result is fatal (a non-nil error) iff the
reply error is non-empty and not `exit status 1`, or the output parses
with other than exactly one testsuite, or it parses with one testsuite
containing no testcase of the given name; in the first case the error
text is the reply error verbatim. An output that FAILS to parse is NOT
fatal: the code returns the zero result with a nil error. -/
theorem c1_fatal_conditions_amended (parse : XmlParse) (tr : TestRun) (name : String) :
    ((∃ e, TestRun.Result parse tr name = Except.error e) ↔
      (replyInfraErr tr ∨ parsedSuitesNotOne parse tr ∨ parsedNoCase parse tr name))
    ∧ (replyInfraErr tr → TestRun.Result parse tr name = Except.error tr.Response.Err)
    ∧ (¬ replyInfraErr tr → parse tr.Response.Output = none →
        TestRun.Result parse tr name = Except.ok ⟨TestRunResultStatus.Success, ""⟩) := by
  by_cases h1 : replyInfraErr tr
  · exact ⟨⟨fun _ => Or.inl h1, fun _ => ⟨_, Result_infra parse tr name h1⟩⟩,
      fun _ => Result_infra parse tr name h1, fun hn => absurd h1 hn⟩
  · refine ⟨?_, fun hi => absurd hi h1, fun _ => Result_noparse parse tr name h1⟩
    cases hp : parse tr.Response.Output with
    | none =>
      rw [Result_noparse parse tr name h1 hp]
      constructor
      · rintro ⟨e, he⟩
        cases he
      · rintro (hi | ⟨r, hr, _⟩ | ⟨r, ts2, hr, _, _⟩)
        · exact absurd hi h1
        · rw [hp] at hr; cases hr
        · rw [hp] at hr; cases hr
    | some r =>
      by_cases hlen : r.testSuites.length = 1
      · obtain ⟨ts, hts⟩ : ∃ ts, r.testSuites = [ts] := by
          rcases hu : r.testSuites with _ | ⟨a, _ | ⟨b, m⟩⟩
          · rw [hu] at hlen; cases hlen
          · exact ⟨a, rfl⟩
          · rw [hu] at hlen; simp at hlen
        rw [Result_one parse tr name r ts h1 hp hts]
        cases hf : ts.testCases.find? (fun v => v.name = name) with
        | none =>
          constructor
          · intro _
            exact Or.inr (Or.inr ⟨r, ts, hp, hts, hf⟩)
          · intro _
            exact ⟨_, rfl⟩
        | some tc =>
          obtain ⟨nm, sk, fl⟩ := tc
          constructor
          · rintro ⟨e, he⟩
            rcases sk with _ | sk
            · rcases fl with _ | fl
              · cases he
              · cases he
            · cases he
          · rintro (hi | ⟨r2, hr2, hl2⟩ | ⟨r2, ts2, hr2, hts2, hf2⟩)
            · exact absurd hi h1
            · rw [hp] at hr2
              injection hr2 with hr3
              subst hr3
              exact absurd hlen hl2
            · rw [hp] at hr2
              injection hr2 with hr3
              subst hr3
              rw [hts] at hts2
              injection hts2 with hts3
              subst hts3
              rw [hf] at hf2
              cases hf2
      · rw [Result_not_one parse tr name r h1 hp hlen]
        constructor
        · intro _
          exact Or.inr (Or.inl ⟨r, hp, hlen⟩)
        · intro _
          exact ⟨_, rfl⟩

/-- Claim C1, counterexample: a reply with empty error whose output fails
to parse as XML yields a nil error (a Success result), so the claimed
equivalence — which counts a parse failure as fatal — is false. -/
theorem c1_fatal_conditions_counterexample :
    ¬ ((∃ e, TestRun.Result (fun _ => none) ⟨⟨"not xml", ""⟩⟩ "t1" = Except.error e) ↔
       (replyInfraErr ⟨⟨"not xml", ""⟩⟩ ∨
        (fun _ => (none : Option JUnitReport)) "not xml" = none ∨
        parsedSuitesNotOne (fun _ => none) ⟨⟨"not xml", ""⟩⟩ ∨
        parsedNoCase (fun _ => none) ⟨⟨"not xml", ""⟩⟩ "t1")) := by
  intro hiff
  rcases hiff.2 (Or.inr (Or.inl rfl)) with ⟨e, he⟩
  have hval : TestRun.Result (fun _ => none) ⟨⟨"not xml", ""⟩⟩ "t1" =
      Except.ok ⟨TestRunResultStatus.Success, ""⟩ :=
    Result_noparse _ _ _ (by intro h; exact h.1 rfl) rfl
  rw [hval] at he
  cases he

/-- Witness for the amended claim C1: a reply error `connection timed
out` is preserved verbatim as the fatal error text. -/
theorem c1_fatal_conditions_amended_witness :
    TestRun.Result (fun _ => none) ⟨⟨"", "connection timed out"⟩⟩ "t1" =
      Except.error "connection timed out" :=
  (c1_fatal_conditions_amended (fun _ => none) ⟨⟨"", "connection timed out"⟩⟩ "t1").2.1
    (by refine ⟨?_, ?_⟩ <;> decide)

/-- Claim C8: for a reply whose error is empty or `exit status 1` and
whose output parses with exactly one testsuite containing a testcase
named `n` (the first such), the result is Skipped with the `<skipped>`
text when present, else Failure with the `<failure>` text when present,
else Success. -/
theorem c8_case_classification (parse : XmlParse) (tr : TestRun) (name : String)
    (r : JUnitReport) (ts : JUnitTestSuite) (tc : JUnitTestCase)
    (he : tr.Response.Err = "" ∨ tr.Response.Err = "exit status 1")
    (hp : parse tr.Response.Output = some r)
    (hs : r.testSuites = [ts])
    (hf : ts.testCases.find? (fun v => v.name = name) = some tc) :
    (∀ s, tc.skipped = some s →
      TestRun.Result parse tr name = Except.ok ⟨TestRunResultStatus.Skipped, s⟩) ∧
    (∀ f, tc.skipped = none → tc.failure = some f →
      TestRun.Result parse tr name = Except.ok ⟨TestRunResultStatus.Failure, f⟩) ∧
    (tc.skipped = none → tc.failure = none →
      TestRun.Result parse tr name = Except.ok ⟨TestRunResultStatus.Success, ""⟩) := by
  have h1 : ¬ replyInfraErr tr := by
    intro hc
    rcases he with he2 | he2
    · exact hc.1 he2
    · exact hc.2 he2
  obtain ⟨nm, sk, fl⟩ := tc
  have hbase := Result_one parse tr name r ts h1 hp hs
  rw [hf] at hbase
  refine ⟨?_, ?_, ?_⟩
  · intro s hsk
    have hsk2 : sk = some s := hsk
    subst hsk2
    exact hbase
  · intro f hsk hfl
    have hsk2 : sk = none := hsk
    have hfl2 : fl = some f := hfl
    subst hsk2
    subst hfl2
    exact hbase
  · intro hsk hfl
    have hsk2 : sk = none := hsk
    have hfl2 : fl = none := hfl
    subst hsk2
    subst hfl2
    exact hbase

/-- Witness for claim C8 at a concrete skipped testcase. -/
theorem c8_case_classification_witness :
    TestRun.Result (fun _ => some ⟨[⟨[⟨"t1", some "needs tty", none⟩]⟩]⟩)
      ⟨⟨"<xml/>", ""⟩⟩ "t1" =
      Except.ok ⟨TestRunResultStatus.Skipped, "needs tty"⟩ :=
  (c8_case_classification (fun _ => some ⟨[⟨[⟨"t1", some "needs tty", none⟩]⟩]⟩)
    ⟨⟨"<xml/>", ""⟩⟩ "t1" ⟨[⟨[⟨"t1", some "needs tty", none⟩]⟩]⟩
    ⟨[⟨"t1", some "needs tty", none⟩]⟩ ⟨"t1", some "needs tty", none⟩
    (Or.inl rfl) rfl rfl (by decide)).1 "needs tty" rfl

/-- Claim C3 (code bug): on an inventory whose first test is fatal, the
TAP reporter prints the header `1..2` but then reuses index 1 for the
second test — the fatal branch `continue`s past `i += 1` — so index 2 is
never printed and index 1 appears on two result lines, contradicting the
claim that each index from 1 to N appears exactly once. -/
theorem c3_tap_index_bug :
    OutputTAPResults parseOnlyXmlB tapFatalInventory =
      some (["1..2", "not ok 1 a", "#boom", "#", "ok 1 b"], 1) ∧
    "ok 2 b" ∉ (["1..2", "not ok 1 a", "#boom", "#", "ok 1 b"] : List String) ∧
    (["1..2", "not ok 1 a", "#boom", "#", "ok 1 b"] : List String).countP
      (fun l => l == "not ok 1 a" || l == "ok 1 b") = 2 := by
  refine ⟨by decide, by decide, by decide⟩

/-- Claim C4, counterexample: the executor's pretty reporter does NOT
print files in inventory order — on the inventory `[b, a]` (both all
passing) it prints `a` first, unlike the unsorted renderer. -/
theorem c4_pretty_order_counterexample :
    OutputBatsResults parseAlwaysPassT twoFilesBA =
      some (["a 100% PASSED", "b 100% PASSED", "2 tests, 0 failures, 0 skipped"], 0) ∧
    renderBatsFiles parseAlwaysPassT twoFilesBA =
      some (["b 100% PASSED", "a 100% PASSED", "2 tests, 0 failures, 0 skipped"], 0) ∧
    OutputBatsResults parseAlwaysPassT twoFilesBA ≠
      renderBatsFiles parseAlwaysPassT twoFilesBA := by
  refine ⟨by decide, by decide, by decide⟩

/-- Claim C4 (amended): the pretty reporter renders the files of the
inventory after sorting them — all-passing files first, ties by
ascending file name (`sort.Slice`) — a permutation of the inventory, not
the inventory order itself. Within a file, tests stay in enumeration
order (the renderer walks `f.tests` in order). -/
theorem c4_pretty_order_amended (parse : XmlParse) (files : List RTestFile) :
    OutputBatsResults parse files =
      renderBatsFiles parse (files.insertionSort (batsFileLess parse)) ∧
    (files.insertionSort (batsFileLess parse)).Perm files :=
  ⟨rfl, List.perm_insertionSort (batsFileLess parse) files⟩

/-- One TAP test line group is defined whenever the test has a run. -/
theorem tapTestLines_isSome (parse : XmlParse) (t : RTest) (i : Nat)
    (hr : t.runs ≠ []) : (tapTestLines parse t i).isSome := by
  rcases t with ⟨nm, runs⟩
  rcases runs with _ | ⟨run, rest⟩
  · exact absurd rfl hr
  · unfold tapTestLines
    rcases hres : TestRun.Result parse run nm with e | ⟨st, out⟩
    · simp [hres]
    · cases st
      · simp [hres]
      · simp [hres]
      · by_cases ho : out = "" <;> simp [hres, ho]

/-- The TAP test loop is defined whenever every test has a run. -/
theorem tapTestsLines_isSome (parse : XmlParse) (ts : List RTest)
    (h : ∀ t ∈ ts, t.runs ≠ []) : ∀ i, (tapTestsLines parse ts i).isSome := by
  induction ts with
  | nil => intro i; simp [tapTestsLines]
  | cons t rest ih =>
    intro i
    have h1 := tapTestLines_isSome parse t i (h t (List.mem_cons_self t rest))
    rcases hv : tapTestLines parse t i with _ | ⟨ls, i2, fat, fl⟩
    · rw [hv] at h1; cases h1
    · have h2 := ih (fun x hx => h x (List.mem_cons_of_mem t hx)) i2
      rcases hv2 : tapTestsLines parse rest i2 with _ | ⟨ls2, i3, fat2, fl2⟩
      · rw [hv2] at h2; cases h2
      · unfold tapTestsLines
        simp [hv, hv2]

/-- The TAP file loop is defined whenever every test has a run. -/
theorem tapFilesLines_isSome (parse : XmlParse) (fs : List RTestFile)
    (h : ∀ f ∈ fs, ∀ t ∈ f.tests, t.runs ≠ []) : ∀ i, (tapFilesLines parse fs i).isSome := by
  induction fs with
  | nil => intro i; simp [tapFilesLines]
  | cons f rest ih =>
    intro i
    have h1 := tapTestsLines_isSome parse f.tests (h f (List.mem_cons_self f rest)) i
    rcases hv : tapTestsLines parse f.tests i with _ | ⟨ls, i2, fat, fl⟩
    · rw [hv] at h1; cases h1
    · have h2 := ih (fun x hx => h x (List.mem_cons_of_mem f hx)) i2
      rcases hv2 : tapFilesLines parse rest i2 with _ | ⟨ls2, i3, fat2, fl2⟩
      · rw [hv2] at h2; cases h2
      · unfold tapFilesLines
        simp [hv, hv2]

/-- `allSuccess` is defined whenever every test of the file has a run. -/
theorem allSuccess_isSome (parse : XmlParse) (ts : List RTest)
    (h : ∀ t ∈ ts, t.runs ≠ []) : (allSuccess parse ts).isSome := by
  induction ts with
  | nil => simp [allSuccess]
  | cons t rest ih =>
    rcases ht : t.runs with _ | ⟨run, rs⟩
    · exact absurd ht (h t (List.mem_cons_self t rest))
    · unfold allSuccess
      rw [ht]
      have h2 := ih (fun x hx => h x (List.mem_cons_of_mem t hx))
      rcases hres : TestRun.Result parse run t.name with e | ⟨st, out⟩
      · simp [hres]
      · by_cases hc : st ≠ TestRunResultStatus.Success ∧ st ≠ TestRunResultStatus.Skipped
        · simp [hres, hc]
        · simp [hres, hc, h2]

/-- One pretty test line group is defined whenever the test has a run. -/
theorem prettyTestLines_isSome (parse : XmlParse) (t : RTest)
    (hr : t.runs ≠ []) : (prettyTestLines parse t).isSome := by
  rcases t with ⟨nm, runs⟩
  rcases runs with _ | ⟨run, rest⟩
  · exact absurd rfl hr
  · unfold prettyTestLines
    rcases hres : TestRun.Result parse run nm with e | ⟨st, out⟩
    · simp [hres]
    · cases st
      · simp [hres]
      · simp [hres]
      · by_cases ho : out = "" <;> simp [hres, ho]

/-- The pretty test loop is defined whenever every test has a run. -/
theorem prettyTestsLines_isSome (parse : XmlParse) (ts : List RTest)
    (h : ∀ t ∈ ts, t.runs ≠ []) : (prettyTestsLines parse ts).isSome := by
  induction ts with
  | nil => simp [prettyTestsLines]
  | cons t rest ih =>
    have h1 := prettyTestLines_isSome parse t (h t (List.mem_cons_self t rest))
    rcases hv : prettyTestLines parse t with _ | ⟨ls, sk, fl, fat⟩
    · rw [hv] at h1; cases h1
    · have h2 := ih (fun x hx => h x (List.mem_cons_of_mem t hx))
      rcases hv2 : prettyTestsLines parse rest with _ | ⟨ls2, sk2, fl2, fat2⟩
      · rw [hv2] at h2; cases h2
      · unfold prettyTestsLines
        simp [hv, hv2]

/-- The pretty file loop is defined whenever every test has a run. -/
theorem prettyFilesLines_isSome (parse : XmlParse) (fs : List RTestFile)
    (h : ∀ f ∈ fs, ∀ t ∈ f.tests, t.runs ≠ []) : (prettyFilesLines parse fs).isSome := by
  induction fs with
  | nil => simp [prettyFilesLines]
  | cons f rest ih =>
    have h1 := allSuccess_isSome parse f.tests (h f (List.mem_cons_self f rest))
    have h2 := ih (fun x hx => h x (List.mem_cons_of_mem f hx))
    have h3 := prettyTestsLines_isSome parse f.tests (h f (List.mem_cons_self f rest))
    rcases hv : allSuccess parse f.tests with _ | b
    · rw [hv] at h1; cases h1
    · rcases hv2 : prettyFilesLines parse rest with _ | ⟨ls2, n2, sk2, fl2, fat2⟩
      · rw [hv2] at h2; cases h2
      · rcases hv3 : prettyTestsLines parse f.tests with _ | ⟨ls3, sk3, fl3, fat3⟩
        · rw [hv3] at h3; cases h3
        · unfold prettyFilesLines
          cases b
          · simp [hv, hv2, hv3]
          · simp [hv, hv2]

/-- Claim C10: both reporters read `Runs[0]` of every test, so they are
well-defined (no index-out-of-range panic, modelled as `none`) exactly
under the precondition that every test has at least one run; on an
inventory containing a test with zero runs both reporters panic rather
than report a fatal result. -/
theorem c10_reporters_need_runs :
    (∀ (parse : XmlParse) (files : List RTestFile),
      (∀ f ∈ files, ∀ t ∈ f.tests, t.runs ≠ []) →
      (OutputTAPResults parse files).isSome ∧ (OutputBatsResults parse files).isSome)
    ∧ OutputTAPResults parseAlwaysPassT zeroRunInventory = none
    ∧ OutputBatsResults parseAlwaysPassT zeroRunInventory = none := by
  refine ⟨?_, by decide, by decide⟩
  intro parse files h
  constructor
  · have h1 := tapFilesLines_isSome parse files h 1
    rcases hv : tapFilesLines parse files 1 with _ | ⟨ls, i2, fat, fl⟩
    · rw [hv] at h1; cases h1
    · unfold OutputTAPResults
      simp [hv]
  · have hsorted : ∀ f ∈ files.insertionSort (batsFileLess parse), ∀ t ∈ f.tests, t.runs ≠ [] :=
      fun f hf => h f ((List.perm_insertionSort (batsFileLess parse) files).mem_iff.mp hf)
    have h1 := prettyFilesLines_isSome parse (files.insertionSort (batsFileLess parse)) hsorted
    rcases hv : prettyFilesLines parse (files.insertionSort (batsFileLess parse)) with _ | ⟨ls, n, sk, fl, fat⟩
    · rw [hv] at h1; cases h1
    · unfold OutputBatsResults renderBatsFiles
      simp [hv]

/-- Witness for claim C10 on a concrete inventory where every test has
one run. -/
theorem c10_reporters_need_runs_witness :
    (OutputTAPResults parseAlwaysPassT twoFilesBA).isSome ∧
    (OutputBatsResults parseAlwaysPassT twoFilesBA).isSome :=
  c10_reporters_need_runs.1 parseAlwaysPassT twoFilesBA (by decide)

/-- Claim C9: `DownloadAndUntar` is idempotent for sequential calls: if a
first call completes successfully (the `.downloaded` sentinel then
exists), any second sequential call with the same class directory and key
returns immediately with the filesystem unchanged and performs zero
downloads; and a first call that found no sentinel performs exactly one
download, so two sequential calls perform exactly one download. -/
theorem c9_sentinel_idempotent :
    ∀ (dlOk utOk : Bool) (extracted : List String) (classDir key : String)
      (fs fs1 : SandboxFS),
      (DownloadAndUntar dlOk utOk extracted classDir key fs).1 = Except.ok fs1 →
      ((∀ (dlOk2 utOk2 : Bool) (extracted2 : List String),
          DownloadAndUntar dlOk2 utOk2 extracted2 classDir key fs1 = (Except.ok fs1, 0))
       ∧ (fs.paths.contains (classDir ++ "/" ++ key ++ "/.downloaded") = false →
           (DownloadAndUntar dlOk utOk extracted classDir key fs).2 = 1)) := by
  intro dlOk utOk extracted classDir key fs fs1 h
  by_cases hs : fs.paths.contains (classDir ++ "/" ++ key ++ "/.downloaded") = true
  · have hval : DownloadAndUntar dlOk utOk extracted classDir key fs = (Except.ok fs, 0) := by
      simp only [DownloadAndUntar]
      rw [if_pos hs]
    have hfs : fs1 = fs := by
      rw [hval] at h
      injection h with h2
      exact h2.symm
    subst hfs
    refine ⟨?_, ?_⟩
    · intro dlOk2 utOk2 extracted2
      simp only [DownloadAndUntar]
      rw [if_pos hs]
    · intro hc
      rw [hc] at hs
      cases hs
  · have hs2 : fs.paths.contains (classDir ++ "/" ++ key ++ "/.downloaded") = false :=
      Bool.eq_false_iff.mpr (fun hc => hs hc)
    have hmem : (classDir ++ "/" ++ key ++ "/.downloaded") ∉ fs.paths := by
      simpa using hs2
    cases dlOk with
    | false =>
      have hval : (DownloadAndUntar false utOk extracted classDir key fs).1 =
          Except.error "download failed" := by
        simp [DownloadAndUntar, hs2, hmem]
      rw [hval] at h
      cases h
    | true =>
      cases utOk with
      | false =>
        have hval : (DownloadAndUntar true false extracted classDir key fs).1 =
            Except.error ("could not untar " ++ (classDir ++ "/" ++ key ++ "/" ++ key ++ ".tar")) := by
          simp [DownloadAndUntar, hs2, hmem]
        rw [hval] at h
        cases h
      | true =>
        have hval : DownloadAndUntar true true extracted classDir key fs =
            (Except.ok ⟨(classDir ++ "/" ++ key ++ "/.downloaded") ::
              ((extracted.map (fun e => classDir ++ "/" ++ key ++ "/" ++ e)) ++
                ((classDir ++ "/" ++ key ++ "/" ++ key ++ ".tar") ::
                  fs.paths.filter (fun p => ¬(classDir ++ "/").isPrefixOf p)))⟩, 1) := by
          simp [DownloadAndUntar, hs2, hmem]
        have hfs : fs1 = ⟨(classDir ++ "/" ++ key ++ "/.downloaded") ::
              ((extracted.map (fun e => classDir ++ "/" ++ key ++ "/" ++ e)) ++
                ((classDir ++ "/" ++ key ++ "/" ++ key ++ ".tar") ::
                  fs.paths.filter (fun p => ¬(classDir ++ "/").isPrefixOf p)))⟩ := by
          rw [hval] at h
          injection h with h2
          exact h2.symm
        refine ⟨?_, ?_⟩
        · intro dlOk2 utOk2 extracted2
          have hin : fs1.paths.contains (classDir ++ "/" ++ key ++ "/.downloaded") = true := by
            rw [hfs]
            simp [List.contains_cons]
          simp only [DownloadAndUntar]
          rw [if_pos hin]
        · intro _
          rw [hval]

/-- Witness for claim C9 at a concrete key and filesystem. -/
theorem c9_sentinel_idempotent_witness :
    (∀ (dlOk2 utOk2 : Bool) (extracted2 : List String),
      DownloadAndUntar dlOk2 utOk2 extracted2 "tmp/downloaded_tests" "K3"
          ⟨["tmp/downloaded_tests/K3/.downloaded", "tmp/downloaded_tests/K3/bats/foo.bats",
            "tmp/downloaded_tests/K3/K3.tar", "other/file"]⟩ =
        (Except.ok ⟨["tmp/downloaded_tests/K3/.downloaded",
            "tmp/downloaded_tests/K3/bats/foo.bats",
            "tmp/downloaded_tests/K3/K3.tar", "other/file"]⟩, 0))
    ∧ (DownloadAndUntar true true ["bats/foo.bats"] "tmp/downloaded_tests" "K3"
        ⟨["other/file"]⟩).2 = 1 := by
  have h := c9_sentinel_idempotent true true ["bats/foo.bats"] "tmp/downloaded_tests" "K3"
    ⟨["other/file"]⟩
    ⟨["tmp/downloaded_tests/K3/.downloaded", "tmp/downloaded_tests/K3/bats/foo.bats",
      "tmp/downloaded_tests/K3/K3.tar", "other/file"]⟩ rfl
  exact ⟨h.1, h.2 (by decide)⟩

/-- Claim C2, counterexample: for the dolt archive built from the binary
bytes `dolt`, the archive's upload key — which the code computes as the
base32-hex SHA-256 of the BINARY — differs from the base32-hex SHA-256
of the archive's own tar bytes, so the claim that every archive is named
by the hash of its own tar bytes is false. -/
theorem c2_artifact_key_counterexample :
    (buildDoltArtifact (asciiBytes "dolt")).key ≠
      base32HexEncode (sha256 (buildDoltArtifact (asciiBytes "dolt")).bytes) := by
  decide!

/-- Claim C2 (amended): only the bats-tests archive is keyed by the
SHA-256 of its own tar bytes; the dolt and remotesrv archives are keyed
by the base32-hex SHA-256 of the contained binary's bytes, while their
archive bytes are the tar encodings of those binaries. -/
theorem c2_artifact_key_amended (doltBin rsrvBin batsTar : List Nat) :
    ((buildBatsArtifact batsTar).key =
        base32HexEncode (sha256 (buildBatsArtifact batsTar).bytes)) ∧
    ((buildDoltArtifact doltBin).key = base32HexEncode (sha256 doltBin) ∧
      (buildDoltArtifact doltBin).bytes = goDoltTarBytes doltBin) ∧
    ((buildBinArtifact rsrvBin).key = base32HexEncode (sha256 rsrvBin) ∧
      (buildBinArtifact rsrvBin).bytes = goRemotesrvTarBytes rsrvBin) :=
  ⟨rfl, ⟨rfl, rfl⟩, ⟨rfl, rfl⟩⟩

end LambdaBats
